import Mathlib

/-!
Verification of the AeroX reactor core against its specification.

The definitions below are a shallow embedding of the Rust sources:
bytes are `Nat` values below 256, byte buffers are `List Nat`, machine
integers are `Nat` reduced modulo `2 ^ w` exactly where the source
performs a wrapping operation or a narrowing cast, and fallible
operations return `Except`.  Mutable buffers passed by `&mut` are
threaded explicitly: a Rust function mutating a buffer becomes a Lean
function returning the new buffer alongside its result.
-/

namespace AeroX

/-! ## Byte-level primitives (`bytes` crate operations used by the codec)

`put_u32_le` / `put_u16_le` append the little-endian bytes of an
integer; `get_u32_le` / `get_u16_le` read them back from the front of
the buffer.  `u32le` takes each byte of the argument modulo 256, so it
also absorbs the `as u32` narrowing cast performed by `Frame::encode`
(the low 32 bits are unchanged by the cast). -/

/-- Little-endian byte sequence written by `put_u32_le`. -/
def u32le (n : Nat) : List Nat :=
  [n % 256, n / 256 % 256, n / 65536 % 256, n / 16777216 % 256]

/-- Little-endian byte sequence written by `put_u16_le`. -/
def u16le (n : Nat) : List Nat :=
  [n % 256, n / 256 % 256]

/-- Value read by `get_u32_le` from the first four bytes of the buffer. -/
def readU32le : List Nat → Nat
  | b0 :: b1 :: b2 :: b3 :: _ => b0 + 256 * b1 + 65536 * b2 + 16777216 * b3
  | _ => 0

/-- Value read by `get_u16_le` from the first two bytes of the buffer. -/
def readU16le : List Nat → Nat
  | b0 :: b1 :: _ => b0 + 256 * b1
  | _ => 0

/-! ## `src/aerox_network/src/protocol/frame.rs` -/

/-- `Frame`: message id (`u16`), sequence id (`u32`), opaque body bytes. -/
structure Frame where
  message_id : Nat
  sequence_id : Nat
  body : List Nat
deriving DecidableEq, Repr

/-- `Frame::HEADER_SIZE`: message id plus sequence id. -/
def Frame.HEADER_SIZE : Nat := 2 + 4

/-- `Frame::LENGTH_SIZE`: the length prefix. -/
def Frame.LENGTH_SIZE : Nat := 4

/-- `Frame::MAX_BODY_SIZE`: 16 MiB. -/
def Frame.MAX_BODY_SIZE : Nat := 16 * 1024 * 1024

/-- `FrameError` (`ioError` models the source variant `Io`). -/
inductive FrameError where
  | frameTooLarge (size : Nat)
  | bodyTooLarge (size : Nat)
  | invalidFormat (msg : String)
  | incomplete
  | ioError (msg : String)
deriving DecidableEq, Repr

/-- `Frame::payload_size`: header plus body, excluding the length prefix. -/
def Frame.payload_size (f : Frame) : Nat := Frame.HEADER_SIZE + f.body.length

/-- `Frame::frame_size`: complete frame size including the length prefix. -/
def Frame.frame_size (f : Frame) : Nat :=
  Frame.LENGTH_SIZE + Frame.HEADER_SIZE + f.body.length

/-- `Frame::encode`: length prefix, message id, sequence id (all
little-endian), then the body unchanged. -/
def Frame.encode (f : Frame) : List Nat :=
  u32le f.payload_size ++ u16le f.message_id ++ u32le f.sequence_id ++ f.body

/-- `Frame::decode` on a `&mut BytesMut` buffer.  Returns the
`Result<Option<Frame>, FrameError>` together with the buffer contents
after the call.  Branches in source order: fewer than 4 bytes gives
`Ok(None)` with the buffer untouched; a declared length above
`HEADER_SIZE + MAX_BODY_SIZE` gives `FrameTooLarge` (the four length
bytes having been consumed by `get_u32_le`); a buffer shorter than the
declared length gives `Ok(None)` after the length bytes are written
back in front; otherwise the header fields are consumed and
`split_to(body_len)` yields the body. -/
def Frame.decode (buf : List Nat) : Except FrameError (Option Frame) × List Nat :=
  if buf.length < 4 then
    (.ok none, buf)
  else if Frame.HEADER_SIZE + Frame.MAX_BODY_SIZE < readU32le buf then
    (.error (.frameTooLarge (readU32le buf)), buf.drop 4)
  else if (buf.drop 4).length < readU32le buf then
    (.ok none, u32le (readU32le buf) ++ buf.drop 4)
  else
    (.ok (some { message_id := readU16le (buf.drop 4),
                 sequence_id := readU32le (buf.drop 6),
                 body := (buf.drop 10).take (readU32le buf - Frame.HEADER_SIZE) }),
     (buf.drop 10).drop (readU32le buf - Frame.HEADER_SIZE))

/-- `Frame::validate`: reject bodies above `MAX_BODY_SIZE`. -/
def Frame.validate (f : Frame) : Except FrameError Unit :=
  if Frame.MAX_BODY_SIZE < f.body.length then
    .error (.bodyTooLarge f.body.length)
  else
    .ok ()

/-! ## `src/aerox_network/src/protocol/codec.rs` -/

/-- `MessageEncoder::encode`: validate, then append the encoded frame to
`dst`.  Returns the `Result<(), FrameError>` together with the contents
of `dst` after the call. -/
def MessageEncoder.encode (f : Frame) (dst : List Nat) :
    Except FrameError Unit × List Nat :=
  match f.validate with
  | .error e => (.error e, dst)
  | .ok _ => (.ok (), dst ++ f.encode)

/-! ## Codec lemmas -/

theorem u32le_length (n : Nat) : (u32le n).length = 4 := rfl

theorem u16le_length (n : Nat) : (u16le n).length = 2 := rfl

theorem readU32le_u32le (n : Nat) (l : List Nat) :
    readU32le (u32le n ++ l) = n % 4294967296 := by
  simp only [u32le, List.cons_append, List.nil_append, readU32le]
  omega

theorem readU16le_u16le (n : Nat) (l : List Nat) :
    readU16le (u16le n ++ l) = n % 65536 := by
  simp only [u16le, List.cons_append, List.nil_append, readU16le]
  omega

theorem Frame.encode_length (f : Frame) :
    f.encode.length = 4 + 6 + f.body.length := by
  simp only [Frame.encode, List.length_append, u32le_length, u16le_length]

/-- Core computation: decoding an encoded well-formed frame followed by
arbitrary trailing bytes consumes exactly the frame. -/
theorem Frame.decode_encode (f : Frame) (tail : List Nat)
    (hb : f.body.length ≤ Frame.MAX_BODY_SIZE)
    (hm : f.message_id < 65536) (hs : f.sequence_id < 4294967296) :
    Frame.decode (f.encode ++ tail) = (.ok (some f), tail) := by
  have hplt : f.payload_size < 4294967296 := by
    simp only [Frame.payload_size, Frame.HEADER_SIZE]
    simp only [Frame.MAX_BODY_SIZE] at hb
    omega
  have hread : readU32le (f.encode ++ tail) = f.payload_size := by
    rw [Frame.encode, List.append_assoc, List.append_assoc, List.append_assoc,
      readU32le_u32le, Nat.mod_eq_of_lt hplt]
  have hlen : (f.encode ++ tail).length = 10 + f.body.length + tail.length := by
    rw [List.length_append, Frame.encode_length]
  have hd4 : (f.encode ++ tail).drop 4 =
      u16le f.message_id ++ (u32le f.sequence_id ++ (f.body ++ tail)) := by
    rw [Frame.encode, List.append_assoc, List.append_assoc, List.append_assoc]
    exact List.drop_left' (u32le_length f.payload_size)
  have hd6 : (f.encode ++ tail).drop 6 = u32le f.sequence_id ++ (f.body ++ tail) := by
    have : (6 : Nat) = 4 + 2 := rfl
    rw [this, ← List.drop_drop, hd4]
    exact List.drop_left' (u16le_length f.message_id)
  have hd10 : (f.encode ++ tail).drop 10 = f.body ++ tail := by
    have : (10 : Nat) = 6 + 4 := rfl
    rw [this, ← List.drop_drop, hd6]
    exact List.drop_left' (u32le_length f.sequence_id)
  rw [Frame.decode, if_neg (by omega), hread, if_neg (by
      simp only [Frame.payload_size, Frame.HEADER_SIZE, Frame.MAX_BODY_SIZE] at *
      omega),
    if_neg (by
      rw [List.length_drop, hlen]
      simp only [Frame.payload_size, Frame.HEADER_SIZE]
      omega),
    hd4, hd6, hd10]
  have hbody : f.payload_size - Frame.HEADER_SIZE = f.body.length := by
    simp only [Frame.payload_size]; omega
  rw [hbody, readU16le_u16le, Nat.mod_eq_of_lt hm, readU32le_u32le,
    Nat.mod_eq_of_lt hs, List.take_left, List.drop_left]

/-- C1 -- Codec round-trip: for every frame with `body.len ≤
MAX_BODY_SIZE` (and fields in range of their Rust types `u16`/`u32`),
`Frame::decode` on `Frame::encode` yields `Ok(Some(frame))` back with an
empty buffer, and the encoding is exactly `4 + 6 + body.len` bytes
long. -/
theorem frame_roundtrip (f : Frame)
    (hb : f.body.length ≤ Frame.MAX_BODY_SIZE)
    (hm : f.message_id < 65536) (hs : f.sequence_id < 4294967296) :
    Frame.decode f.encode = (.ok (some f), []) ∧
    f.encode.length = 4 + 6 + f.body.length := by
  constructor
  · have := Frame.decode_encode f [] hb hm hs
    rwa [List.append_nil] at this
  · exact Frame.encode_length f

/-- Witness for C1 at the concrete frame `(1, 2, [104, 105])`. -/
theorem frame_roundtrip_witness :
    ((⟨1, 2, [104, 105]⟩ : Frame).body.length ≤ Frame.MAX_BODY_SIZE) ∧
    Frame.decode (⟨1, 2, [104, 105]⟩ : Frame).encode =
      (.ok (some ⟨1, 2, [104, 105]⟩), []) ∧
    (⟨1, 2, [104, 105]⟩ : Frame).encode.length = 4 + 6 + 2 :=
  ⟨by decide, (frame_roundtrip ⟨1, 2, [104, 105]⟩ (by decide) (by decide) (by decide)).1,
    (frame_roundtrip ⟨1, 2, [104, 105]⟩ (by decide) (by decide) (by decide)).2⟩

/-- C2 -- Partial-decode idempotence: for any split of an encoded frame
into a strict prefix and the remaining suffix, `Frame::decode` on the
prefix alone returns `Ok(None)` with the buffer contents unchanged, and
decoding again after the suffix is appended yields the original frame
with an empty buffer. -/
theorem partial_decode (f : Frame) (pre suf : List Nat)
    (hb : f.body.length ≤ Frame.MAX_BODY_SIZE)
    (hm : f.message_id < 65536) (hs : f.sequence_id < 4294967296)
    (hsplit : f.encode = pre ++ suf) (hsuf : suf ≠ []) :
    Frame.decode pre = (.ok none, pre) ∧
    Frame.decode (pre ++ suf) = (.ok (some f), []) := by
  have hplt : f.payload_size < 4294967296 := by
    simp only [Frame.payload_size, Frame.HEADER_SIZE]
    simp only [Frame.MAX_BODY_SIZE] at hb
    omega
  constructor
  · by_cases h4 : pre.length < 4
    · rw [Frame.decode, if_pos h4]
    · push_neg at h4
      have hsuflen : 1 ≤ suf.length := by
        cases suf with
        | nil => exact absurd rfl hsuf
        | cons a t => simp
      have hprelen : pre.length + suf.length = 10 + f.body.length := by
        have := Frame.encode_length f
        rw [hsplit, List.length_append] at this
        omega
      have htake : pre.take 4 = u32le f.payload_size := by
        have h1 : (pre ++ suf).take 4 = pre.take 4 :=
          List.take_append_of_le_length h4
        have h2 : f.encode.take 4 = u32le f.payload_size := by
          rw [Frame.encode, List.append_assoc, List.append_assoc]
          exact List.take_left' (u32le_length f.payload_size)
        rw [hsplit, h1] at h2
        exact h2
      have hpre_eq : pre = u32le f.payload_size ++ pre.drop 4 := by
        rw [← htake, List.take_append_drop]
      have hread : readU32le pre = f.payload_size := by
        rw [hpre_eq, readU32le_u32le, Nat.mod_eq_of_lt hplt]
      rw [Frame.decode, if_neg (by omega), hread,
        if_neg (by
          simp only [Frame.payload_size, Frame.HEADER_SIZE, Frame.MAX_BODY_SIZE] at *
          omega),
        if_pos (by
          rw [List.length_drop]
          simp only [Frame.payload_size, Frame.HEADER_SIZE]
          omega),
        ← hpre_eq]
  · rw [← hsplit]
    have := Frame.decode_encode f [] hb hm hs
    rwa [List.append_nil] at this

/-- Witness for C2: the encoding of `(1, 2, [104, 105])` split after its
fifth byte. -/
theorem partial_decode_witness :
    (⟨1, 2, [104, 105]⟩ : Frame).encode =
      [8, 0, 0, 0, 1] ++ [0, 2, 0, 0, 0, 104, 105] ∧
    Frame.decode [8, 0, 0, 0, 1] = (.ok none, [8, 0, 0, 0, 1]) ∧
    Frame.decode ([8, 0, 0, 0, 1] ++ [0, 2, 0, 0, 0, 104, 105]) =
      (.ok (some ⟨1, 2, [104, 105]⟩), []) := by
  have h := partial_decode ⟨1, 2, [104, 105]⟩ [8, 0, 0, 0, 1]
    [0, 2, 0, 0, 0, 104, 105] (by decide) (by decide) (by decide) (by decide)
    (by decide)
  exact ⟨by decide, h.1, h.2⟩

/-- C3 -- Oversize rejection: `MessageEncoder::encode` on a frame whose
body length is `MAX_BODY_SIZE + 1` fails with `BodyTooLarge` and leaves
`dst` untouched; `Frame::decode` on a buffer whose declared length field
exceeds `HEADER_SIZE + MAX_BODY_SIZE` fails with `FrameTooLarge`. -/
theorem oversize_rejection (f : Frame) (dst buf : List Nat)
    (hf : f.body.length = Frame.MAX_BODY_SIZE + 1)
    (hbuf : 4 ≤ buf.length)
    (hlen : Frame.HEADER_SIZE + Frame.MAX_BODY_SIZE < readU32le buf) :
    MessageEncoder.encode f dst =
      (.error (.bodyTooLarge (Frame.MAX_BODY_SIZE + 1)), dst) ∧
    Frame.decode buf = (.error (.frameTooLarge (readU32le buf)), buf.drop 4) := by
  constructor
  · have hv : f.validate = .error (.bodyTooLarge (Frame.MAX_BODY_SIZE + 1)) := by
      rw [Frame.validate, hf, if_pos (by omega)]
    rw [MessageEncoder.encode, hv]
  · rw [Frame.decode, if_neg (by omega), if_pos hlen]

/-- Witness for C3 at a 16 MiB + 1 body and the buffer `[7, 0, 0, 1]`,
whose declared length 16777223 exceeds `6 + MAX_BODY_SIZE`. -/
theorem oversize_rejection_witness :
    (Frame.mk 0 0 (List.replicate (Frame.MAX_BODY_SIZE + 1) 0)).body.length =
      Frame.MAX_BODY_SIZE + 1 ∧
    4 ≤ ([7, 0, 0, 1] : List Nat).length ∧
    Frame.HEADER_SIZE + Frame.MAX_BODY_SIZE < readU32le [7, 0, 0, 1] ∧
    MessageEncoder.encode (Frame.mk 0 0 (List.replicate (Frame.MAX_BODY_SIZE + 1) 0)) [] =
      (.error (.bodyTooLarge (Frame.MAX_BODY_SIZE + 1)), []) ∧
    Frame.decode [7, 0, 0, 1] =
      (.error (.frameTooLarge (readU32le [7, 0, 0, 1])), ([7, 0, 0, 1] : List Nat).drop 4) := by
  have h1 : (Frame.mk 0 0 (List.replicate (Frame.MAX_BODY_SIZE + 1) 0)).body.length =
      Frame.MAX_BODY_SIZE + 1 := by simp
  have h2 : (4 : Nat) ≤ ([7, 0, 0, 1] : List Nat).length := by decide
  have h3 : Frame.HEADER_SIZE + Frame.MAX_BODY_SIZE < readU32le [7, 0, 0, 1] := by decide
  have h := oversize_rejection _ [] [7, 0, 0, 1] h1 h2 h3
  exact ⟨h1, h2, h3, h.1, h.2⟩

/-! ## `src/aerox_network/src/connection/pool.rs`

`ConnectionPool` holds a `HashMap<ConnectionId, Connection>`.  The map
is embedded as an association list whose keys are unique (the `HashMap`
invariant); each entry records the connection id together with the
value `conn.idle_time()` observed during the `cleanup_idle` scan, which
is the only connection attribute the reaper consults.  `Duration`
values are nanosecond counts, embedded as `Nat`. -/

/-- One entry of the pool as seen by the idle reaper: connection id and
the `idle_time()` observed at the scan. -/
structure PoolEntry where
  id : Nat
  idleTime : Nat
deriving DecidableEq, Repr

/-- `HashMap::remove(&id)`: drop the (unique) entry with this key. -/
def removeConn (m : List PoolEntry) (id : Nat) : List PoolEntry :=
  m.eraseP (fun c => c.id == id)

/-- `ConnectionPool::cleanup_idle`: collect the ids of all connections
with `idle_time() > timeout`, remove each collected id, and return the
number of collected ids together with the remaining map. -/
def cleanup_idle (m : List PoolEntry) (timeout : Nat) : List PoolEntry × Nat :=
  let toRemove := (m.filter (fun c => timeout < c.idleTime)).map PoolEntry.id
  (toRemove.foldl removeConn m, toRemove.length)

/-- Removing ids that do not match the head leaves the head in place. -/
theorem foldl_removeConn_cons (ids : List Nat) (c : PoolEntry) :
    ∀ t : List PoolEntry, c.id ∉ ids →
      ids.foldl removeConn (c :: t) = c :: ids.foldl removeConn t := by
  induction ids with
  | nil => intro t _; rfl
  | cons i ids ih =>
    intro t hni
    have hne : c.id ≠ i := fun h => hni (h ▸ List.mem_cons_self i ids)
    have hstep : removeConn (c :: t) i = c :: removeConn t i := by
      have hfalse : (c.id == i) = false := beq_eq_false_iff_ne.mpr hne
      simp [removeConn, List.eraseP_cons, hfalse]
    rw [List.foldl_cons, hstep, List.foldl_cons,
      ih (removeConn t i) (fun h => hni (List.mem_cons_of_mem i h))]

/-- Under unique keys, removing exactly the ids of the entries matched
by `P` filters the map down to the entries not matched by `P`. -/
theorem foldl_removeConn_filter (P : PoolEntry → Bool) :
    ∀ m : List PoolEntry, (m.map PoolEntry.id).Nodup →
      ((m.filter P).map PoolEntry.id).foldl removeConn m =
        m.filter (fun c => ! P c) := by
  intro m
  induction m with
  | nil => intro _; rfl
  | cons c t ih =>
    intro hnd
    rw [List.map_cons, List.nodup_cons] at hnd
    obtain ⟨hc, hnd'⟩ := hnd
    by_cases hP : P c
    · rw [List.filter_cons_of_pos hP, List.map_cons, List.foldl_cons]
      have hhead : removeConn (c :: t) c.id = t := by
        simp [removeConn, List.eraseP_cons]
      rw [hhead, ih hnd', List.filter_cons_of_neg (by simp [hP])]
    · rw [List.filter_cons_of_neg (by simpa using hP)]
      have hni : c.id ∉ (t.filter P).map PoolEntry.id := by
        intro hmem
        exact hc (by
          obtain ⟨d, hd, hid⟩ := List.mem_map.mp hmem
          exact List.mem_map.mpr ⟨d, (List.mem_filter.mp hd).1, hid⟩)
      rw [foldl_removeConn_cons _ c t hni, ih hnd',
        List.filter_cons_of_pos (by simpa using hP)]

/-- C4 counterexample: a pool holding one connection whose observed
`idle_time` equals the timeout.  The claim says `cleanup_idle` removes
every connection with `idle_time ≥ Δ`, so this connection should be
removed and the count should be 1; the code keeps it and returns 0,
because the scan uses the strict comparison `idle_time() > timeout`. -/
theorem cleanup_idle_claim_cex :
    (cleanup_idle [⟨1, 5⟩] 5).2 = 0 ∧
    ∃ c ∈ (cleanup_idle [⟨1, 5⟩] 5).1, 5 ≤ c.idleTime := by
  exact ⟨rfl, ⟨⟨1, 5⟩, by decide, by decide⟩⟩

/-- C4 (amended) -- Idle reaper correctness with a strict threshold: for
a pool with unique connection ids, `cleanup_idle(Δ)` removes exactly the
connections whose observed `idle_time` is strictly greater than `Δ`, so
afterwards every remaining connection has `idle_time ≤ Δ`, and the
returned count equals the number of connections removed. -/
theorem cleanup_idle_correct (m : List PoolEntry) (Δ : Nat)
    (hnd : (m.map PoolEntry.id).Nodup) :
    (cleanup_idle m Δ).1 = m.filter (fun c => c.idleTime ≤ Δ) ∧
    (∀ c ∈ (cleanup_idle m Δ).1, c.idleTime ≤ Δ) ∧
    (cleanup_idle m Δ).2 + (cleanup_idle m Δ).1.length = m.length := by
  have hfil : (m.filter (fun c => ! (Δ < c.idleTime : Bool))) =
      m.filter (fun c => c.idleTime ≤ Δ) := by
    refine List.filter_congr ?_
    intro c _
    by_cases h : c.idleTime ≤ Δ
    · simp [h, Nat.not_lt.mpr h]
    · simp [h, Nat.not_le.mp h]
  have hmain : (cleanup_idle m Δ).1 = m.filter (fun c => c.idleTime ≤ Δ) := by
    rw [cleanup_idle]
    simpa [hfil] using foldl_removeConn_filter (fun c => Δ < c.idleTime) m hnd
  refine ⟨hmain, ?_, ?_⟩
  · intro c hcmem
    rw [hmain] at hcmem
    simpa using (List.mem_filter.mp hcmem).2
  · rw [hmain, cleanup_idle]
    simp only [List.length_map]
    have := List.length_eq_length_filter_add (l := m) (fun c => Δ < c.idleTime)
    rw [hfil] at this
    omega

/-- Witness for C4 (amended) on a three-entry pool around the
threshold. -/
theorem cleanup_idle_correct_witness :
    (([⟨1, 3⟩, ⟨2, 5⟩, ⟨3, 9⟩] : List PoolEntry).map PoolEntry.id).Nodup ∧
    (cleanup_idle [⟨1, 3⟩, ⟨2, 5⟩, ⟨3, 9⟩] 5).1 =
      ([⟨1, 3⟩, ⟨2, 5⟩, ⟨3, 9⟩] : List PoolEntry).filter (fun c => c.idleTime ≤ 5) ∧
    (∀ c ∈ (cleanup_idle [⟨1, 3⟩, ⟨2, 5⟩, ⟨3, 9⟩] 5).1, c.idleTime ≤ 5) ∧
    (cleanup_idle [⟨1, 3⟩, ⟨2, 5⟩, ⟨3, 9⟩] 5).2 +
      (cleanup_idle [⟨1, 3⟩, ⟨2, 5⟩, ⟨3, 9⟩] 5).1.length = 3 := by
  have hnd : (([⟨1, 3⟩, ⟨2, 5⟩, ⟨3, 9⟩] : List PoolEntry).map PoolEntry.id).Nodup := by
    decide
  have h := cleanup_idle_correct [⟨1, 3⟩, ⟨2, 5⟩, ⟨3, 9⟩] 5 hnd
  exact ⟨hnd, h.1, h.2.1, h.2.2⟩

/-! ## `src/aerox_core/src/error/context.rs` and `error/framework.rs` -/

/-- `ErrorContext`: key/value or free-text context attached to an
error. -/
inductive ErrorContext where
  | keyValue (key value : String)
  | custom (msg : String)
deriving DecidableEq, Repr

/-- `AeroXError`.  `ioError` models the source variant `Io`, which
wraps a `std::io::Error`; the wrapped error is embedded as its display
string.  `withContext` boxes an inner `AeroXError` together with an
`ErrorContext`. -/
inductive AeroXError where
  | ioError (msg : String)
  | config (msg : String)
  | network (msg : String)
  | protocol (msg : String)
  | router (msg : String)
  | plugin (msg : String)
  | serialization (msg : String)
  | connection (msg : String)
  | timeout
  | unimplemented (msg : String)
  | validation (msg : String)
  | withContext (inner : AeroXError) (context : ErrorContext)
deriving DecidableEq, Repr

/-- `AeroXErrorKind` (`ioKind` models the source variant `Io`). -/
inductive AeroXErrorKind where
  | ioKind
  | config
  | network
  | protocol
  | router
  | plugin
  | serialization
  | connection
  | timeout
  | unimplemented
  | validation
  | other
deriving DecidableEq, Repr

/-- `AeroXError::kind`: programmatic classification of each variant. -/
def AeroXError.kind : AeroXError → AeroXErrorKind
  | .ioError _ => .ioKind
  | .config _ => .config
  | .network _ => .network
  | .protocol _ => .protocol
  | .router _ => .router
  | .plugin _ => .plugin
  | .serialization _ => .serialization
  | .connection _ => .connection
  | .timeout => .timeout
  | .unimplemented _ => .unimplemented
  | .validation _ => .validation
  | .withContext _ _ => .other

/-- `AeroXError::with_context`: box the error inside `WithContext`. -/
def AeroXError.with_context (e : AeroXError) (c : ErrorContext) : AeroXError :=
  .withContext e c

/-- `std::error::Error::source` as derived by `thiserror` for the
`#[source]` attribute on `WithContext`: the boxed inner error.  (For
the other variants the derived source is not an `AeroXError` and is
outside this embedding.) -/
def AeroXError.sourceOf : AeroXError → Option AeroXError
  | .withContext inner _ => some inner
  | _ => none

/-- C10 -- `with_context` builds the `WithContext` variant around the
unchanged original error, which remains reachable as the source, yet
`kind()` on the wrapper is `Other` no matter what the inner kind was:
wrapping preserves the source error but discards its programmatic
classification. -/
theorem with_context_kind (e : AeroXError) (c : ErrorContext) :
    e.with_context c = .withContext e c ∧
    (e.with_context c).sourceOf = some e ∧
    (e.with_context c).kind = .other := by
  exact ⟨rfl, rfl, rfl⟩

/-- Witness for C10 at a `Timeout` error (own kind `Timeout`) wrapped
with a key/value context. -/
theorem with_context_kind_witness :
    AeroXError.timeout.with_context (.keyValue "peer" "1.2.3.4") =
      .withContext .timeout (.keyValue "peer" "1.2.3.4") ∧
    (AeroXError.timeout.with_context (.keyValue "peer" "1.2.3.4")).sourceOf =
      some .timeout ∧
    (AeroXError.timeout.with_context (.keyValue "peer" "1.2.3.4")).kind = .other ∧
    AeroXError.timeout.kind ≠ AeroXErrorKind.other :=
  ⟨(with_context_kind .timeout (.keyValue "peer" "1.2.3.4")).1,
   (with_context_kind .timeout (.keyValue "peer" "1.2.3.4")).2.1,
   (with_context_kind .timeout (.keyValue "peer" "1.2.3.4")).2.2,
   by decide⟩

/-! ## `src/aerox_router/src/context.rs`

`Context` carries connection id, peer address, message id, sequence id,
the request bytes, extensions and a timestamp.  The embedding keeps the
fields the router and middleware claims consult; the peer address,
extensions placeholder and `Instant` timestamp are outside the
embedding and omitted. -/

/-- Request context (the fields consulted by router and middleware). -/
structure Context where
  connection_id : Nat
  message_id : Nat
  sequence_id : Nat
  data : List Nat
deriving DecidableEq, Repr

/-! ## `src/aerox_router/src/middleware.rs`

Handlers are async and side-effecting (they log).  The embedding gives
each handler and middleware an explicit event trace: a `HandlerFn`
returns the list of events it emitted, in order, together with its
`Result<()>`; `await`-ing an inner future corresponds to splicing its
trace.  `Next::run` is application of the wrapped handler. -/

/-- Event trace emitted by a handler chain. -/
abbrev Trace := List String

/-- `Result<()>` of a handler. -/
abbrev HResult := Except AeroXError Unit

/-- `dyn Handler`: `call(ctx)` yields an event trace and a result. -/
abbrev HandlerFn := Context → Trace × HResult

/-- `dyn Middleware`: `call(ctx, next)` where `next.run` is application
of the remainder of the chain. -/
abbrev MiddlewareFn := Context → HandlerFn → Trace × HResult

/-- `Stack`: the ordered list of middlewares, first-added first. -/
abbrev Stack := List MiddlewareFn

/-- `Stack::wrap_middleware` / `MiddlewareHandler::call`: the wrapped
handler invokes the middleware with the inner handler as `next`. -/
def wrap_middleware (handler : HandlerFn) (middleware : MiddlewareFn) : HandlerFn :=
  fun ctx => middleware ctx handler

/-- `Stack::build`: fold the middlewares in reverse over the final
handler, so the first-added middleware becomes the outermost wrapper. -/
def Stack.build (s : Stack) (handler : HandlerFn) : HandlerFn :=
  s.reverse.foldl wrap_middleware handler

/-- Tag of a result, used by the tracing middleware to record the
outcome it observed. -/
def resTag : HResult → String
  | .ok _ => "ok"
  | .error _ => "err"

/-- Instrumented middleware: records entry, runs `next`, records exit
together with the outcome it observed, and passes the result through
unchanged. -/
def traceMiddleware (name : String) : MiddlewareFn :=
  fun ctx next =>
    let (t, r) := next ctx
    (("enter " ++ name) :: t ++ ["exit " ++ name ++ " " ++ resTag r], r)

/-- Instrumented short-circuiting middleware: records entry and exit
and returns `r` without ever invoking `next`. -/
def shortCircuit (name : String) (r : HResult) : MiddlewareFn :=
  fun _ _ => (["enter " ++ name, "exit " ++ name ++ " " ++ resTag r], r)

/-- Instrumented final handler. -/
def traceHandler (name : String) (r : HResult) : HandlerFn :=
  fun _ => (["run " ++ name], r)

/-- C5 -- Middleware order: building the stack `[A, B]` around the
handler `H` yields a handler whose trace enters A, then B, then runs H,
then exits B, then A, each wrapper observing the inner result; and when
B short-circuits with `rB`, the chain returns `rB`, A still observes
it, and H never runs. -/
theorem middleware_order (ctx : Context) (rH rB : HResult) :
    Stack.build [traceMiddleware "A", traceMiddleware "B"] (traceHandler "H" rH) ctx =
      (["enter A", "enter B", "run H", "exit B " ++ resTag rH,
        "exit A " ++ resTag rH], rH) ∧
    Stack.build [traceMiddleware "A", shortCircuit "B" rB] (traceHandler "H" rH) ctx =
      (["enter A", "enter B", "exit B " ++ resTag rB,
        "exit A " ++ resTag rB], rB) ∧
    "run H" ∉ (Stack.build [traceMiddleware "A", shortCircuit "B" rB]
      (traceHandler "H" rH) ctx).1 := by
  refine ⟨rfl, rfl, ?_⟩
  show "run H" ∉ ["enter A", "enter B", "exit B " ++ resTag rB, "exit A " ++ resTag rB]
  cases rB
  all_goals simp only [resTag]
  all_goals decide

/-- Witness for C5 at a concrete context, `H` returning `Ok` and the
short-circuiting `B` returning `Timeout`. -/
theorem middleware_order_witness :
    Stack.build [traceMiddleware "A", traceMiddleware "B"]
      (traceHandler "H" (.ok ())) ⟨1, 100, 1000, []⟩ =
      (["enter A", "enter B", "run H", "exit B ok", "exit A ok"], .ok ()) ∧
    Stack.build [traceMiddleware "A", shortCircuit "B" (.error .timeout)]
      (traceHandler "H" (.ok ())) ⟨1, 100, 1000, []⟩ =
      (["enter A", "enter B", "exit B err", "exit A err"], .error .timeout) ∧
    "run H" ∉ (Stack.build [traceMiddleware "A", shortCircuit "B" (.error .timeout)]
      (traceHandler "H" (.ok ())) ⟨1, 100, 1000, []⟩).1 := by
  have h := middleware_order ⟨1, 100, 1000, []⟩ (.ok ()) (.error .timeout)
  exact ⟨h.1, h.2.1, h.2.2⟩

/-! ## `src/aerox_router/src/router.rs`

The route table `HashMap<u16, Box<dyn Handler>>` is embedded as an
association list; `add_route` only ever inserts an absent key, so
lookup semantics match the hash map exactly. -/

/-- The router: message id to handler table. -/
abbrev Router := List (Nat × HandlerFn)

/-- `Router::add_route`: fail if the message id is present, otherwise
insert.  Returns the `Result<()>` together with the table after the
call. -/
def Router.add_route (r : Router) (message_id : Nat) (handler : HandlerFn) :
    Except AeroXError Unit × Router :=
  if (r.lookup message_id).isSome then
    (.error (.router ("路由已存在: " ++ toString message_id)), r)
  else
    (.ok (), (message_id, handler) :: r)

/-- `Router::get_route`. -/
def Router.get_route (r : Router) (message_id : Nat) : Option HandlerFn :=
  r.lookup message_id

/-- `Router::handle`: look up by `ctx.message_id`; on a miss report the
route-not-found error (no handler ran, so the trace is empty), on a hit
invoke the handler. -/
def Router.handle (r : Router) (ctx : Context) : Trace × HResult :=
  match r.get_route ctx.message_id with
  | none => ([], .error (.router ("未找到路由: " ++ toString ctx.message_id)))
  | some h => h ctx

/-- C6 -- Router registration: with `m` not yet registered, the first
`add_route` succeeds; a second `add_route` for the same `m` fails with
the route-exists error and returns the table unchanged; and dispatching
a context whose message id is `m` still invokes the first handler. -/
theorem router_registration (r : Router) (m : Nat) (h₁ h₂ : HandlerFn)
    (ctx : Context) (habs : (r.lookup m).isSome = false)
    (hctx : ctx.message_id = m) :
    (r.add_route m h₁).1 = .ok () ∧
    ((r.add_route m h₁).2).add_route m h₂ =
      (.error (.router ("路由已存在: " ++ toString m)), (r.add_route m h₁).2) ∧
    ((r.add_route m h₁).2).handle ctx = h₁ ctx := by
  have hr₁ : (r.add_route m h₁).2 = (m, h₁) :: r := by
    rw [Router.add_route, if_neg (by simp [habs])]
  have hlook : (((m, h₁) :: r) : Router).lookup m = some h₁ := by
    simp [List.lookup]
  refine ⟨?_, ?_, ?_⟩
  · rw [Router.add_route, if_neg (by simp [habs])]
  · rw [hr₁, Router.add_route, if_pos (by rw [hlook]; rfl)]
  · rw [hr₁, Router.handle, Router.get_route, hctx, hlook]

/-- Witness for C6: an empty router, message id 7, two distinct
instrumented handlers. -/
theorem router_registration_witness :
    ((([] : Router).lookup 7).isSome = false) ∧
    (Router.add_route [] 7 (traceHandler "h1" (.ok ()))).1 = .ok () ∧
    Router.add_route (Router.add_route [] 7 (traceHandler "h1" (.ok ()))).2 7
        (traceHandler "h2" (.ok ())) =
      (.error (.router ("路由已存在: " ++ toString 7)),
       (Router.add_route [] 7 (traceHandler "h1" (.ok ()))).2) ∧
    Router.handle (Router.add_route [] 7 (traceHandler "h1" (.ok ()))).2
        ⟨1, 7, 0, []⟩ =
      traceHandler "h1" (.ok ()) ⟨1, 7, 0, []⟩ := by
  have h := router_registration [] 7 (traceHandler "h1" (.ok ()))
    (traceHandler "h2" (.ok ())) ⟨1, 7, 0, []⟩ rfl rfl
  exact ⟨rfl, h.1, h.2.1, h.2.2⟩

/-! ## `src/aerox_network/src/reactor/balancer.rs`

The target is a 64-bit platform: `usize` and `u64` both wrap modulo
`2 ^ 64`, and `fetch_add` is a wrapping operation by definition. -/

/-- One beyond the largest `usize` / `u64` value on the 64-bit target. -/
def WORD_MOD : Nat := 2 ^ 64

/-- `ConnectionBalancer`: fixed worker count and the atomic counter. -/
structure ConnectionBalancer where
  worker_count : Nat
  current : Nat
deriving DecidableEq, Repr

/-- `ConnectionBalancer::next_worker`: `fetch_add(1, Relaxed)` on the
counter (wrapping on overflow), then the fetched value modulo the
worker count.  Returns the chosen index and the balancer state after
the call. -/
def ConnectionBalancer.next_worker (b : ConnectionBalancer) :
    Nat × ConnectionBalancer :=
  (b.current % b.worker_count, ⟨b.worker_count, (b.current + 1) % WORD_MOD⟩)

/-- Indices returned by `n` successive `next_worker` calls. -/
def ConnectionBalancer.run (b : ConnectionBalancer) : Nat → List Nat
  | 0 => []
  | n + 1 => (b.next_worker).1 :: ConnectionBalancer.run (b.next_worker).2 n

/-- C7 counterexample: with 3 workers and the counter at
`usize::MAX = 2 ^ 64 - 1` (a legal starting counter value), the next
`1 * 3` invocations return worker 0 twice and worker 2 never, because
the counter wraps to 0 inside the window and `2 ^ 64` is not a multiple
of 3.  The claim demands each index exactly once. -/
theorem balancer_fairness_cex :
    (ConnectionBalancer.run ⟨3, 2 ^ 64 - 1⟩ (1 * 3)).count 0 = 2 ∧
    (ConnectionBalancer.run ⟨3, 2 ^ 64 - 1⟩ (1 * 3)).count 2 = 0 := by
  constructor
  · rfl
  · rfl

/-- While the counter window does not wrap, the returned indices are
the residues of consecutive counter values. -/
theorem ConnectionBalancer.run_eq_map (W : Nat) :
    ∀ n c : Nat, c + n ≤ WORD_MOD →
      ConnectionBalancer.run ⟨W, c⟩ n =
        (List.range n).map (fun i => (c + i) % W) := by
  intro n
  induction n with
  | zero => intro c _; rfl
  | succ n ih =>
    intro c hc
    have hstep : ConnectionBalancer.run ⟨W, c⟩ (n + 1) =
        c % W :: ConnectionBalancer.run ⟨W, (c + 1) % WORD_MOD⟩ n := rfl
    rw [hstep, List.range_succ_eq_map, List.map_cons, List.map_map]
    cases n with
    | zero => simp [ConnectionBalancer.run]
    | succ n' =>
      have hlt : c + 1 < WORD_MOD := by omega
      rw [Nat.mod_eq_of_lt hlt, ih (c + 1) (by omega)]
      have hfun : ((fun i => (c + i) % W) ∘ Nat.succ) =
          fun i => ((c + 1) + i) % W := by
        funext i
        show (c + (i + 1)) % W = ((c + 1) + i) % W
        exact congrArg (· % W) (by omega)
      rw [hfun]
      simp

/-- Over one window of `W` consecutive counter values each worker index
below `W` occurs exactly once. -/
theorem count_mod_cycle (W c v : Nat) (hW : 0 < W) (hv : v < W) :
    ((List.range W).map (fun i => (c + i) % W)).count v = 1 := by
  have hnd : ((List.range W).map (fun i => (c + i) % W)).Nodup := by
    refine List.Nodup.map_on ?_ (List.nodup_range W)
    intro x hx y hy hxy
    rw [List.mem_range] at hx hy
    have h2 : x % W = y % W := Nat.ModEq.add_left_cancel' c hxy
    rwa [Nat.mod_eq_of_lt hx, Nat.mod_eq_of_lt hy] at h2
  have hmem : v ∈ (List.range W).map (fun i => (c + i) % W) := by
    refine List.mem_map.mpr ⟨(v + (W - c % W)) % W,
      List.mem_range.mpr (Nat.mod_lt _ hW), ?_⟩
    have hr : c % W < W := Nat.mod_lt c hW
    have hdm : W * (c / W) + c % W = c := Nat.div_add_mod c W
    rw [Nat.add_mod_mod]
    have hmul : W * (c / W + 1) = W * (c / W) + W := by ring
    have harith : c + (v + (W - c % W)) = v + W * (c / W + 1) := by omega
    rw [harith, Nat.add_mul_mod_self_left]
    exact Nat.mod_eq_of_lt hv
  exact List.count_eq_one_of_mem hnd hmem

/-- Over `k` windows of `W` consecutive counter values each worker index
below `W` occurs exactly `k` times. -/
theorem count_mod_window (W v : Nat) (hW : 0 < W) (hv : v < W) :
    ∀ k c : Nat, ((List.range (k * W)).map (fun i => (c + i) % W)).count v = k := by
  intro k
  induction k with
  | zero => intro c; rw [Nat.zero_mul]; rfl
  | succ k ih =>
    intro c
    have hsplit : (k + 1) * W = k * W + W := by ring
    rw [hsplit, List.range_add, List.map_append, List.count_append, ih c,
      List.map_map]
    have hfun : ((fun i => (c + i) % W) ∘ (fun j => k * W + j)) =
        fun i => ((c + k * W) + i) % W := by
      funext i
      show (c + (k * W + i)) % W = ((c + k * W) + i) % W
      exact congrArg (· % W) (by omega)
    rw [hfun, count_mod_cycle W (c + k * W) v hW hv]

/-- C7 (amended) -- Balancer fairness without wrap-around: for every
worker count `W ≥ 1`, every `k`, and every starting counter value `c`
whose window of `k·W` invocations does not overflow the counter
(`c + k·W ≤ 2 ^ 64`), each worker index in `0..W` is returned exactly
`k` times; `next_worker` is a counter fetch-add reduced modulo `W`. -/
theorem balancer_fairness (W c k v : Nat) (hW : 0 < W) (hv : v < W)
    (hnw : c + k * W ≤ WORD_MOD) :
    (ConnectionBalancer.run ⟨W, c⟩ (k * W)).count v = k := by
  rw [ConnectionBalancer.run_eq_map W (k * W) c hnw]
  exact count_mod_window W v hW hv k c

/-- Witness for C7 (amended): 2 workers, fresh counter, `k = 2`. -/
theorem balancer_fairness_witness :
    (0 : Nat) < 2 ∧ (1 : Nat) < 2 ∧ 0 + 2 * 2 ≤ WORD_MOD ∧
    (ConnectionBalancer.run ⟨2, 0⟩ (2 * 2)).count 1 = 2 :=
  ⟨by decide, by decide, by decide,
    balancer_fairness 2 0 2 1 (by decide) (by decide) (by decide)⟩

/-! ## `src/aerox_core/src/connection.rs` (id generator) -/

/-- `ConnectionIdGenerator`: a single `AtomicU64` counter. -/
structure ConnectionIdGenerator where
  next_id : Nat
deriving DecidableEq, Repr

/-- `ConnectionIdGenerator::new`: the counter starts at 1. -/
def ConnectionIdGenerator.new : ConnectionIdGenerator := ⟨1⟩

/-- `ConnectionIdGenerator::next`: `fetch_add(1, SeqCst)` returns the
stored value; the stored counter wraps on overflow. -/
def ConnectionIdGenerator.next (g : ConnectionIdGenerator) :
    Nat × ConnectionIdGenerator :=
  (g.next_id, ⟨(g.next_id + 1) % WORD_MOD⟩)

/-- Generator state after `n` calls starting from `new`. -/
def genState : Nat → ConnectionIdGenerator
  | 0 => ConnectionIdGenerator.new
  | n + 1 => ((genState n).next).2

/-- The id returned by call number `n` (0-indexed: call 0 is the first
call of the process). -/
def nthId (n : Nat) : Nat := ((genState n).next).1

theorem genState_eq (n : Nat) : genState n = ⟨(1 + n) % WORD_MOD⟩ := by
  induction n with
  | zero =>
    show ConnectionIdGenerator.new = _
    rw [ConnectionIdGenerator.new]
    exact congrArg ConnectionIdGenerator.mk (by decide)
  | succ n ih =>
    show ((genState n).next).2 = _
    rw [ih, ConnectionIdGenerator.next]
    refine congrArg ConnectionIdGenerator.mk ?_
    rw [Nat.mod_add_mod]
    exact congrArg (· % WORD_MOD) (by omega)

theorem nthId_eq (n : Nat) : nthId n = (1 + n) % WORD_MOD := by
  rw [nthId, genState_eq]
  rfl

/-- C8 counterexample: the id of call `2 ^ 64` (0-indexed) equals the id
of the first call, because the `u64` counter has wrapped: id 1 is
returned twice within one process, so ids are not strictly increasing
and not unique without a bound on the number of calls. -/
theorem idgen_claim_cex :
    nthId 0 = 1 ∧ nthId (2 ^ 64) = 1 ∧ (0 : Nat) ≠ 2 ^ 64 := by
  refine ⟨?_, ?_, by decide⟩
  · rw [nthId_eq]
    decide
  · rw [nthId_eq]
    show (1 + 2 ^ 64) % 2 ^ 64 = 1
    omega

/-- C8 (amended) -- Id monotonicity below the counter width: the first
call returns id 1, and as long as fewer than `2 ^ 64` ids have been
handed out, later calls return strictly larger ids than earlier ones
(hence successive calls increase strictly and no id repeats). -/
theorem idgen_monotone (m n : Nat) (hmn : m < n) (hn : 1 + n < WORD_MOD) :
    nthId 0 = 1 ∧ nthId m < nthId n := by
  have hn' : 1 + n < 2 ^ 64 := hn
  have hm : nthId m = 1 + m := by
    rw [nthId_eq]
    exact Nat.mod_eq_of_lt (by show 1 + m < 2 ^ 64; omega)
  have hnn : nthId n = 1 + n := by
    rw [nthId_eq]
    exact Nat.mod_eq_of_lt hn
  refine ⟨?_, ?_⟩
  · rw [nthId_eq]; decide
  · rw [hm, hnn]; omega

/-- Witness for C8 (amended): the first two calls return 1 and 2. -/
theorem idgen_monotone_witness :
    (0 : Nat) < 1 ∧ 1 + 1 < WORD_MOD ∧ nthId 0 = 1 ∧ nthId 0 < nthId 1 :=
  ⟨by decide, by decide,
    (idgen_monotone 0 1 (by decide) (by decide)).1,
    (idgen_monotone 0 1 (by decide) (by decide)).2⟩

end AeroX
